import Mathlib

/-!
Shallow embedding of the core of the `solnet` package (solar radio
spectrograph reading, combination and gain rectification) together with
theorems settling the specification claims.

Conventions of the embedding:
* A floating-point power value is modelled as `Val := Option ℚ`;
  `none` plays the role of IEEE NaN (it propagates through arithmetic,
  makes any consecutive difference a "change", and is absorbing for the
  median, exactly as NaN behaves in the numpy code).
* Python exceptions are modelled by `Except PyErr`.  The distinct Python
  exception classes that the code can raise are distinguished because the
  spec names them (`IncompatibleAxis` and friends are `RuntimeError`s with
  a specific message; an out-of-range index is `IndexError`; a reference
  to an undefined variable is `NameError`; a missing attribute is
  `AttributeError`; a bad `datetime` field is `ValueError`; a dictionary
  miss is `KeyError`).
* Timestamps and frequencies are exact rationals.  All the arithmetic the
  claims touch (10-second grids, medians of integer-valued data, linearly
  spaced frequency axes) is exact in the source as well.
-/

set_option maxRecDepth 100000

unseal Rat.add Rat.sub Rat.mul Rat.inv Rat.ofScientific

deriving instance DecidableEq for Except

/-- The Python exception kinds the modelled code can raise. -/
inductive PyErr where
  | runtime : String → PyErr
  | nameError : PyErr
  | attrError : PyErr
  | indexError : PyErr
  | keyError : PyErr
  | valueError : PyErr
deriving DecidableEq

/-- A floating point value; `none` is NaN. -/
abbrev Val := Option ℚ

/-- NaN-propagating addition (`x + y` on floats). -/
def valAdd : Val → Val → Val
  | some a, some b => some (a + b)
  | _, _ => none

/-- NaN-propagating subtraction (`x - y` on floats). -/
def valSub : Val → Val → Val
  | some a, some b => some (a - b)
  | _, _ => none

/-- Insertion of a rational into a sorted list (helper for sorting). -/
def insertQ (x : ℚ) : List ℚ → List ℚ
  | [] => [x]
  | y :: ys => if x ≤ y then x :: y :: ys else y :: insertQ x ys

/-- Insertion sort on rationals (`np.sort` on NaN-free data). -/
def sortQ : List ℚ → List ℚ
  | [] => []
  | x :: xs => insertQ x (sortQ xs)

/-- Python slice `l[a:b]`. -/
def pySlice (l : List Val) (a b : ℕ) : List Val := (l.drop a).take (b - a)

/-- `np.median`: NaN if the input is empty or contains NaN, otherwise the
middle element of the sorted data (mean of the two middle elements for an
even count). -/
def npMedian (l : List Val) : Val :=
  if l.isEmpty then none
  else if l.any (fun v => v.isNone) then none
  else
    let s := sortQ (l.filterMap id)
    let n := s.length
    if n % 2 = 1 then some (s.getD (n / 2) 0)
    else some ((s.getD (n / 2 - 1) 0 + s.getD (n / 2) 0) / 2)

/-- The in-memory spectrogram (`SolarRadioSpectrograph`).  `data_source`
is the `_data_source` attribute that only combined instances carry. -/
structure SRS where
  site_id : ℕ
  site : String
  freq_range : List ℚ
  time_range : List ℚ
  data : List (List Val)
  data_source : Option (List Val)
deriving DecidableEq

/-! ### The frame decoder (`SolarRadioSpectrograph.from_file`) -/

/-- The 18 fields of the 24-byte big-endian header
`>BBBBBBBBHHHBBHHHBB`, keeping only the fields the code reads. -/
structure Header where
  year : ℕ
  month : ℕ
  day : ℕ
  hour : ℕ
  minute : ℕ
  second : ℕ
  siteId : ℕ
  f1B : ℕ
  f1E : ℕ
  f1Ref : ℕ
  f1Atten : ℕ
  f2B : ℕ
  f2E : ℕ
  f2Ref : ℕ
  f2Atten : ℕ
deriving DecidableEq

/-- A big-endian 16-bit quantity from two bytes. -/
def be16 (hi lo : ℕ) : ℕ := 256 * hi + lo

/-- `struct.unpack('>BBBBBBBBHHHBBHHHBB', header)` on the 24 header
bytes: single-byte fields at offsets 0-7, 14, 15, 22, 23 and big-endian
two-byte fields at offsets 8-9 (band-1 start), 10-11 (band-1 end),
16-17 (band-2 start) and 18-19 (band-2 end). -/
def parseHeader (b : List ℕ) : Header :=
  ⟨b.getD 0 0, b.getD 1 0, b.getD 2 0, b.getD 3 0, b.getD 4 0, b.getD 5 0,
   b.getD 6 0,
   be16 (b.getD 8 0) (b.getD 9 0), be16 (b.getD 10 0) (b.getD 11 0),
   b.getD 14 0, b.getD 15 0,
   be16 (b.getD 16 0) (b.getD 17 0), be16 (b.getD 18 0) (b.getD 19 0),
   b.getD 22 0, b.getD 23 0⟩

/-- Two-digit year de-aliasing: `>50` means 1900+, otherwise 2000+. -/
def fullYear (h : Header) : ℕ := if h.year > 50 then 1900 + h.year else 2000 + h.year

/-- Gregorian leap year. -/
def isLeap (y : ℕ) : Bool := y % 4 = 0 && (y % 100 ≠ 0 || y % 400 = 0)

/-- Days in a month of a given year. -/
def daysInMonth (y m : ℕ) : ℕ :=
  if m = 2 then (if isLeap y then 29 else 28)
  else if m = 4 ∨ m = 6 ∨ m = 9 ∨ m = 11 then 30
  else 31

/-- The field ranges `datetime(...)` accepts; outside them the
constructor raises `ValueError`. -/
def validDate (h : Header) : Prop :=
  1 ≤ h.month ∧ h.month ≤ 12 ∧ 1 ≤ h.day ∧
  h.day ≤ daysInMonth (fullYear h) h.month ∧
  h.hour ≤ 23 ∧ h.minute ≤ 59 ∧ h.second ≤ 59

instance (h : Header) : Decidable (validDate h) := by
  unfold validDate; infer_instance

/-- Days before January 1st of year `y` (proleptic Gregorian), as in
CPython's date ordinal computation. -/
def daysBeforeYear (y : ℕ) : ℕ :=
  365 * (y - 1) + (y - 1) / 4 - (y - 1) / 100 + (y - 1) / 400

/-- Days before the first of month `m` in year `y`. -/
def daysBeforeMonth (y m : ℕ) : ℕ :=
  ((List.range m).drop 1).foldl (fun acc k => acc + daysInMonth y k) 0

/-- Proleptic Gregorian ordinal of a date. -/
def toOrdinal (y m d : ℕ) : ℕ := daysBeforeYear y + daysBeforeMonth y m + d

/-- `datetime(..., tzinfo=UTC).timestamp()`: seconds since the Unix
epoch. -/
def unixTime (h : Header) : ℤ :=
  ((toOrdinal (fullYear h) h.month h.day : ℤ) - (toOrdinal 1970 1 1 : ℤ)) * 86400
  + 3600 * h.hour + 60 * h.minute + h.second

/-- The `_SITE_ID_TO_NAME` vocabulary. -/
def siteName (id : ℕ) : Option String :=
  [(1, "Palehau"), (2, "Holloman"), (3, "Learmonth"), (4, "San Vito"),
   (5, "Sagamore Hill")].lookup id

/-- `np.linspace(a, b, 401)`: 401 points from `a` to `b` inclusive. -/
def linspace401 (a b : ℚ) : List ℚ :=
  (List.range 401).map fun (i : ℕ) => a + (i : ℚ) * (b - a) / 400

/-- The 802-point frequency axis of the first record: band-1 sweep then
band-2 sweep, scaled from MHz to Hz. -/
def headerFreq (h : Header) : List ℚ :=
  (linspace401 (h.f1B : ℚ) (h.f1E : ℚ) ++ linspace401 (h.f2B : ℚ) (h.f2E : ℚ)).map
    fun f => f * 1000000

/-- One decoded data row: raw unsigned bytes of the two 401-byte blocks,
each offset by that band's reference level plus attenuator setting. -/
def recordRow (h : Header) (d0 d1 : List ℕ) : List Val :=
  d0.map (fun (b : ℕ) => some ((b : ℚ) + h.f1Ref + h.f1Atten)) ++
  d1.map (fun (b : ℕ) => some ((b : ℚ) + h.f2Ref + h.f2Atten))

/-- Site id, site name and frequency axis captured from the first
record. -/
abbrev Frozen := ℕ × String × List ℚ

/-- The decoder loop of `from_file`: read a 24-byte header (stop if
short), on the first frame capture the site (KeyError on an unknown id)
and the frequency axis, build the timestamp (ValueError on a bad date),
then read the two 401-byte payload blocks (stop if either is short) and
append the decoded row. -/
def decodeLoop (bytes : List ℕ) (frozen : Option Frozen) :
    Except PyErr (List (ℤ × List Val) × Option Frozen) :=
  if _h24 : bytes.length < 24 then .ok ([], frozen)
  else
    let hdr := parseHeader (bytes.take 24)
    let rest := bytes.drop 24
    let frozenNext : Except PyErr Frozen :=
      match frozen with
      | some fr => .ok fr
      | none =>
        match siteName hdr.siteId with
        | none => .error .keyError
        | some nm => .ok (hdr.siteId, nm, headerFreq hdr)
    match frozenNext with
    | .error e => .error e
    | .ok fr =>
      if validDate hdr then
        if rest.length < 401 then .ok ([], some fr)
        else
          let d0 := rest.take 401
          let rest2 := rest.drop 401
          if rest2.length < 401 then .ok ([], some fr)
          else
            let d1 := rest2.take 401
            let row := recordRow hdr d0 d1
            if row.length ≠ fr.2.2.length then .error .nameError
            else
              match decodeLoop (rest2.drop 401) (some fr) with
              | .error e => .error e
              | .ok (rows, fz) => .ok ((unixTime hdr, row) :: rows, fz)
      else .error .valueError
termination_by bytes.length
decreasing_by
  simp only [List.length_drop]
  omega

/-- The placeholder instance `SolarRadioSpectrograph(1, [])` the decoder
starts from. -/
def initSRS : SRS := ⟨1, "Palehau", [], [], [], none⟩

/-- `SolarRadioSpectrograph.from_file` on an in-memory byte stream. -/
def from_file (bytes : List ℕ) : Except PyErr SRS :=
  match decodeLoop bytes none with
  | .error e => .error e
  | .ok (_, none) => .ok initSRS
  | .ok (rows, some fr) =>
      .ok ⟨fr.1, fr.2.1, fr.2.2, rows.map (fun r => (r.1 : ℚ)),
           rows.map Prod.snd, none⟩

/-! ### The container operation `extend` -/

/-- `SolarRadioSpectrograph.extend`.  The length check against the
frequency axis raises `NameError` (its error message reads the undefined
name `data`), and the success path raises `AttributeError` (it appends to
`self.time_ranges`, an attribute that does not exist). -/
def extend (srs : SRS) (timestamps : List ℚ) (specs : List (List Val)) :
    Except PyErr SRS :=
  if timestamps.length ≠ specs.length then
    .error (.runtime "Different numbers of timestamps and spectra")
  else if specs.any (fun s => s.length ≠ srs.freq_range.length) then
    .error .nameError
  else
    .error .attrError

/-! ### The combiner (`combine_srs`) -/

/-- A pooled sample: its source tag (the input's positional index), its
timestamp, its selection weight and its data row. -/
abbrev PoolEntry := ℚ × ℚ × ℚ × List Val

/-- The frequency-axis compatibility check of `combine_srs` against the
first input: size, then first value, then last value.  Reading the first
value of an empty axis is an `IndexError`. -/
def checkOne (f s : SRS) : Except PyErr Unit :=
  if s.freq_range.length ≠ f.freq_range.length then
    .error (.runtime "mis-matched frequency axis")
  else
    match s.freq_range.head?, f.freq_range.head? with
    | some a, some b =>
      if a ≠ b then .error (.runtime "mis-matched frequency start")
      else
        match s.freq_range.getLast?, f.freq_range.getLast? with
        | some c, some d =>
          if c ≠ d then .error (.runtime "mis-matched frequency stop") else .ok ()
        | _, _ => .error .indexError
    | _, _ => .error .indexError

/-- The compatibility loop over all the inputs (including the first one
against itself); an empty argument list fails reading `args[0]`. -/
def checkFreq (inputs : List SRS) : Except PyErr Unit :=
  match inputs with
  | [] => .error .indexError
  | f :: _ => inputs.foldlM (fun _ s => checkOne f s) ()

/-- The tagged, weighted pool built from one input: each sample gets the
input index as tag and weight `1 - |t - t_mid| / 86400` where `t_mid` is
the input's own middle-indexed timestamp (an empty input fails indexing
that midpoint).  Rows are paired with timestamps positionally, which on
inputs satisfying the row-count invariant is the source pooling. -/
def srsPool (i : ℕ) (s : SRS) : Except PyErr (List PoolEntry) :=
  match s.time_range with
  | [] => .error .indexError
  | t :: ts =>
    let times := t :: ts
    let tmid := times.getD (times.length / 2) 0
    .ok ((times.zip s.data).map fun p =>
      ((i : ℚ), p.1, 1 - |p.1 - tmid| / 86400, p.2))

/-- All inputs' samples pooled into one flat collection, in input
order. -/
def buildPool (inputs : List SRS) : Except PyErr (List PoolEntry) := do
  let pools ← inputs.enum.mapM fun p => srsPool p.1 p.2
  return pools.flatten

/-- Keep the candidate with the strictly larger weight; on a tie keep the
earlier one (that is how `np.argmax` breaks ties). -/
def better (a b : PoolEntry) : PoolEntry := if b.2.2.1 > a.2.2.1 then b else a

/-- First pool entry of maximal weight among `e :: l`. -/
def pickBest (e : PoolEntry) (l : List PoolEntry) : PoolEntry := l.foldl better e

/-- One 10-second grid step of the combiner: gather the samples within
the open 5-second half-window of `t0`; emit the best-weighted one with
its own timestamp and tag, or a NaN tag, the grid time and an all-NaN row
when there is none. -/
def combineStep (pool : List PoolEntry) (rowLen : ℕ) (t0 : ℚ) :
    Val × ℚ × List Val :=
  match pool.filter (fun p => decide (|p.2.1 - t0| < 5)) with
  | [] => (none, t0, List.replicate rowLen none)
  | e :: es =>
    let b := pickBest e es
    (some b.1, b.2.1, b.2.2.2)

/-- The combined numeric site id: input `i` contributes
`site_id * 10 ^ i`. -/
def combinedSiteId (inputs : List SRS) : ℕ :=
  inputs.enum.foldl (fun acc p => acc + p.2.site_id * 10 ^ p.1) 0

/-- `combine_srs`: check the axes, pool all samples, then walk the
uniform 10-second grid from the global minimum to the global maximum
timestamp. -/
def combine_srs (inputs : List SRS) : Except PyErr SRS :=
  match inputs with
  | [] => .error .indexError
  | first :: _ =>
    match checkFreq inputs with
    | .error e => .error e
    | .ok _ =>
      match buildPool inputs with
      | .error e => .error e
      | .ok pool =>
        match pool with
        | [] => .error .valueError
        | p :: ps =>
          let tmin := (ps.map (fun q => q.2.1)).foldl min p.2.1
          let tmax := (ps.map (fun q => q.2.1)).foldl max p.2.1
          let n := (((tmax - tmin) / 10).floor).toNat + 1
          let rowLen := p.2.2.2.length
          let steps := (List.range n).map fun (k : ℕ) => combineStep pool rowLen (tmin + 10 * (k : ℚ))
          .ok ⟨combinedSiteId inputs,
               String.intercalate "+" (inputs.map (fun s => s.site)),
               first.freq_range,
               steps.map (fun st => st.2.1),
               steps.map (fun st => st.2.2),
               some (steps.map (fun st => st.1))⟩

/-! ### The gain rectifier (`rectify_combined`) -/

/-- Whether `np.diff` of the label sequence is nonzero at a pair: two
equal finite labels give zero; anything involving NaN gives NaN, which
also compares nonzero. -/
def changeB : Val → Val → Bool
  | some a, some b => decide (a ≠ b)
  | _, _ => true

/-- `np.diff(data_source) != 0` as a boolean list. -/
def changes (ds : List Val) : List Bool :=
  (ds.zip ds.tail).map fun p => changeB p.1 p.2

/-- `np.where(changes != 0)[0][0]`: index of the first change, if any. -/
def firstChangeIdx (ds : List Val) : Option ℕ := (changes ds).findIdx? id

/-- The reference label `data_source[np.where(changes != 0)[0][0]]`;
`none` in the outer option models the `IndexError` raised when the label
sequence has no change at all. -/
def refLabel (ds : List Val) : Option Val :=
  (firstChangeIdx ds).bind fun i => ds[i]?

/-- `np.unique` of the finite labels: sorted distinct site tags. -/
def uniqueSorted (l : List ℚ) : List ℚ := (sortQ l).dedup

/-- `np.where(data_source == s)[0]`. -/
def siteIndices (ds : List Val) (s : ℚ) : List ℕ :=
  (List.range ds.length).filter fun i => decide (ds.getD i none = some s)

/-- The mutable state of the rectification loop: the row list `_data`
(shared with the input instance), the processed tags and the recorded
adjustments, in insertion order. -/
structure RectSt where
  data : List (List Val)
  processed : List Val
  adjustments : List (Val × Val)
deriving DecidableEq

/-- Handling of one site tag inside a pass.  A run starting after row 0
is adjusted from the row just before it when that row's tag is already
processed, and skipped otherwise.  A run starting at row 0 evaluates
`len(data_sources)`, a name that is not defined in the function, so it
raises `NameError`.  An empty selection fails indexing `source_set[0]`. -/
def rectifySite (ds : List Val) (s : ℚ) (st : RectSt) : Except PyErr RectSt :=
  if (some s : Val) ∈ st.processed then .ok st
  else
    match siteIndices ds s with
    | [] => .error .indexError
    | i0 :: _ =>
      if 0 < i0 then
        let before := ds.getD (i0 - 1) none
        if before ∈ st.processed then
          let bd := npMedian (pySlice (st.data.getD (i0 - 1) []) 200 401)
          let cu := npMedian (pySlice (st.data.getD i0 []) 200 401)
          let off := valSub bd cu
          let idxs := siteIndices ds s
          let data' := st.data.mapIdx fun i row =>
            if i ∈ idxs then row.map (fun v => valAdd v off) else row
          .ok ⟨data', st.processed ++ [some s], st.adjustments ++ [(some s, off)]⟩
        else .ok st
      else .error .nameError

/-- One scan over all distinct site tags. -/
def rectifyPass (ds : List Val) (sources : List ℚ) (st : RectSt) :
    Except PyErr RectSt :=
  sources.foldlM (fun acc s => rectifySite ds s acc) st

/-- The bounded retry loop: at most `5 * len(sources)` passes run; if the
processed set is still incomplete after that the code raises its
"failed to adjust" RuntimeError. -/
def rectifyLoop (ds : List Val) (sources : List ℚ) :
    ℕ → RectSt → Except PyErr RectSt
  | remaining, st =>
    if st.processed.length < sources.length then
      match remaining with
      | 0 => .error (.runtime "Failed to adjust all sites")
      | r + 1 =>
        match rectifyPass ds sources st with
        | .error e => .error e
        | .ok st' => rectifyLoop ds sources r st'
    else .ok st

/-- The observable result of `rectify_combined`: the returned instance's
row list, the adjustment mapping, and the input instance's row list after
the call.  In the source the returned `_data` and the input's `_data` are
one and the same list object (`_data = srs._data` is mutated in place and
then assigned to the deep copy), so both fields are built from the same
final state. -/
structure RectOut where
  newData : List (List Val)
  adjustments : List (Val × Val)
  inputDataAfter : List (List Val)
deriving DecidableEq

/-- `rectify_combined`. -/
def rectify_combined (srs : SRS) : Except PyErr RectOut :=
  match srs.data_source with
  | none => .error (.runtime "does not appear to be combined")
  | some ds =>
    let sources := uniqueSorted (ds.filterMap id)
    match refLabel ds with
    | none => .error .indexError
    | some ref =>
      let st0 : RectSt := ⟨srs.data, [ref], [(ref, some 0)]⟩
      match rectifyLoop ds sources (5 * sources.length) st0 with
      | .error e => .error e
      | .ok st => .ok ⟨st.data, st.adjustments, st.data⟩

/-! ### Concrete instances used by the counterexamples and witnesses -/

/-- A 24-byte header: 2024-01-01 00:00:00, site 1, band 1 from 25 MHz to
75 MHz, band 2 from 75 MHz to 180 MHz, zero reference levels and
attenuator settings. -/
def exHdr : List ℕ :=
  [24, 1, 1, 0, 0, 0, 1, 0, 0, 25, 0, 75, 0, 0, 0, 0, 0, 75, 0, 180, 0, 0, 0, 0]

/-- A full 826-byte record: the header above and two all-zero 401-byte
payload blocks. -/
def exRec : List ℕ := exHdr ++ List.replicate 802 0

/-- A stream of 3 × 1226 = 3678 bytes holding four full 826-byte records
and a truncated fifth record (full header, short payload). -/
def c3stream : List ℕ := exRec ++ exRec ++ exRec ++ exRec ++ exHdr ++ List.replicate 350 0

/-- A single-input collection whose samples sit at 0 s and 13 s. -/
def c1ex : SRS :=
  ⟨1, "Palehau", [25000000, 180000000], [0, 13],
   [[some 1, some 2], [some 3, some 4]], none⟩

/-- The result of `combine_srs [c1ex]`. -/
def c1out : SRS :=
  ⟨1, "Palehau", [25000000, 180000000], [0, 13],
   [[some 1, some 2], [some 3, some 4]], some [some 0, some 0]⟩

/-- A 201-column data row: 200 zeros and a distinguishing last value, so
that the reference sub-band slice `[200:401]` is exactly `[some c]`. -/
def exRow (c : ℚ) : List Val := List.replicate 200 (some 0) ++ [some c]

/-- A two-site combined input: site 0 on rows 0-1, site 1 on rows 2-3,
with a 5-unit power step between the sites. -/
def c2srs : SRS :=
  ⟨0, "", [], [], [exRow 0, exRow 0, exRow 5, exRow 5],
   some [some 0, some 0, some 1, some 1]⟩

/-- The row list after rectifying `c2srs`: rows 2 and 3 have been shifted
by the offset −5. -/
def c2mut : List (List Val) :=
  [exRow 0, exRow 0, List.replicate 200 (some (-5)) ++ [some 0],
   List.replicate 200 (some (-5)) ++ [some 0]]

/-- A three-site combined input: site 0 (reference) on rows 0-1, site 2
on rows 2-3, site 1 on rows 4-5, then site 0 again on row 6.  Site 1's
run is preceded by site 2 (unprocessed in the first pass) and followed by
site 0 (processed from the start). -/
def c7srs : SRS :=
  ⟨0, "", [], [],
   [exRow 0, exRow 10, exRow 20, exRow 30, exRow 40, exRow 50, exRow 60],
   some [some 0, some 0, some 2, some 2, some 1, some 1, some 0]⟩

/-- Inputs for the axis-compatibility claims: `srsF` and `srsG` agree in
length and endpoints but differ at an interior frequency; `srsH` differs
from `srsF` in the last frequency. -/
def srsF : SRS := ⟨1, "Palehau", [10, 99, 20], [0], [[some 0, some 0, some 0]], none⟩

/-- Same endpoints and length as `srsF`, different interior value. -/
def srsG : SRS := ⟨2, "Holloman", [10, 55, 20], [0], [[some 0, some 0, some 0]], none⟩

/-- Same length and first value as `srsF`, different last value. -/
def srsH : SRS := ⟨3, "Learmonth", [10, 99, 21], [0], [[some 0, some 0, some 0]], none⟩

/-- An empty container with a two-bin frequency axis. -/
def c9srs : SRS := ⟨1, "Palehau", [25000000, 180000000], [], [], none⟩

/-- A full, decodable record: 826 bytes (24-byte header, two 401-byte
payload blocks) whose header fields form a date `datetime` accepts. -/
def validRecord (r : List ℕ) : Prop :=
  r.length = 826 ∧ validDate (parseHeader (r.take 24))

instance (r : List ℕ) : Decidable (validRecord r) := by
  unfold validRecord; infer_instance

/-- All input timestamps, pooled in input order. -/
def allTimes (inputs : List SRS) : List ℚ :=
  (inputs.map (fun s => s.time_range)).flatten

/-! ## Claim theorems -/

/-- **C10.** Decoding a completely empty byte stream does not raise: it
returns a spectrogram with zero rows, an empty time axis, an empty
frequency axis and the constructor's placeholder site 1, 'Palehau'. -/
theorem c10_theorem : from_file [] = .ok ⟨1, "Palehau", [], [], [], none⟩ := by
  have h : decodeLoop [] none = .ok ([], none) := by
    unfold decodeLoop
    simp
  simp [from_file, h, initSRS]

/-- **C9.** The bulk `extend` operation never appends anything: on
inputs whose rows all match the frequency axis it raises
`AttributeError` (the success path reads the nonexistent attribute
`time_ranges`), on a row-length mismatch it raises `NameError` (the
error message reads the undefined name `data`) rather than the
documented dimension-mismatch RuntimeError, and only the
count-mismatch RuntimeError is raised as documented. -/
theorem c9_theorem :
    extend c9srs [0] [[some 1, some 2]] = .error .attrError ∧
    extend c9srs [0] [[some 1]] = .error .nameError ∧
    extend c9srs [] [[some 1, some 2]] =
      .error (.runtime "Different numbers of timestamps and spectra") := by
  refine ⟨rfl, rfl, rfl⟩

/-- **C2.** Evaluating `rectify_combined` on a concrete two-site
combined input: the call succeeds, but the input instance's row list
after the call differs from its row list before the call (rows of site 1
were shifted in place), and the returned instance's row list is that
same mutated list. -/
theorem c2_theorem :
    rectify_combined c2srs =
      .ok ⟨c2mut, [(some 0, some 0), (some 1, some (-5))], c2mut⟩ ∧
    c2mut ≠ c2srs.data := by
  constructor
  · decide
  · decide

/-- **C1, counterexample.**  Combining the single input `c1ex` (samples
at 0 s and 13 s) succeeds, but the output time axis is `[0, 13]`: the row
at grid step 1 keeps the selected sample's own timestamp 13, not the grid
time 0 + 10·1 = 10.  The claim that every output row's timestamp equals
its grid time is false. -/
theorem c1_counterexample :
    combine_srs [c1ex] =
      .ok ⟨1, "Palehau", [25000000, 180000000], [0, 13],
           [[some 1, some 2], [some 3, some 4]], some [some 0, some 0]⟩ ∧
    ([(0 : ℚ), 13] ≠ [0 + 10 * (0 : ℚ), 0 + 10 * 1]) := by
  constructor
  · decide
  · decide

/-- **C5, counterexample.**  A combined input whose source labels hold
exactly one distinct finite site tag and no missing-data marker has no
change in its label sequence, so `rectify_combined` fails with
`IndexError` (indexing the empty `np.where` result) instead of
succeeding with a zero adjustment. -/
theorem c5_counterexample :
    rectify_combined ⟨0, "", [], [], [exRow 0, exRow 0], some [some 0, some 0]⟩ =
      .error .indexError := by
  decide

/-- **C6, counterexample.**  On the label sequence `[0, 0, 1, 1]` the
first change is between indices 1 and 2; the label immediately following
it is `1`, but the code designates `0` — the label at (before) the change
index — as the reference site. -/
theorem c6_counterexample :
    refLabel [some 0, some 0, some 1, some 1] = some (some 0) ∧
    [some (0 : ℚ), some 0, some 1, some 1].getD 2 none = some 1 ∧
    ((some (0 : ℚ) : Val) ≠ some 1) := by
  refine ⟨by decide, by decide, by decide⟩

/-- **C7, counterexample.**  In `c7srs`, site 1's run (rows 4-5) is
preceded by unprocessed site 2 and followed by processed site 0.  The
claimed after-run handling would give site 1 the offset
median(row 6) − median(row 5) = 10 in the first pass; the code instead
skips site 1 until site 2 is processed and then uses the before-run rule,
recording −20. -/
theorem c7_counterexample :
    (rectify_combined c7srs).map (fun r => r.adjustments.lookup (some 1)) =
      .ok (some (some (-20))) ∧
    valSub (npMedian (pySlice (c7srs.data.getD 6 []) 200 401))
        (npMedian (pySlice (c7srs.data.getD 5 []) 200 401)) = some 10 ∧
    ((some (-20 : ℚ) : Val) ≠ some 10) := by
  refine ⟨by decide, by decide, by decide⟩

/-! ### Axis compatibility (C8) -/

theorem except_error_bind {ε α β : Type} (e : ε) (k : α → Except ε β) :
    (Except.error e >>= k : Except ε β) = .error e := rfl

theorem except_ok_bind {ε α β : Type} (a : α) (k : α → Except ε β) :
    (Except.ok a >>= k : Except ε β) = k a := rfl

theorem checkOne_ok (f s : SRS) :
    checkOne f s = .ok () ↔
      s.freq_range.length = f.freq_range.length ∧
      (∃ a, f.freq_range.head? = some a ∧ s.freq_range.head? = some a) ∧
      (∃ b, f.freq_range.getLast? = some b ∧ s.freq_range.getLast? = some b) := by
  unfold checkOne
  rcases hsh : s.freq_range.head? with _ | a <;>
    rcases hfh : f.freq_range.head? with _ | b <;>
      rcases hsl : s.freq_range.getLast? with _ | c <;>
        rcases hfl : f.freq_range.getLast? with _ | d <;>
          simp only [hsh, hfh, hsl, hfl] <;>
            split_ifs <;> simp_all

theorem checkLoop_ok (f : SRS) (l : List SRS) :
    List.foldlM (fun _ s => checkOne f s) () l = .ok () ↔
      ∀ s ∈ l, checkOne f s = .ok () := by
  induction l with
  | nil => simp [List.foldlM]; rfl
  | cons a t ih =>
    rw [List.foldlM_cons]
    cases h : checkOne f a with
    | error e => simp [h, except_error_bind]
    | ok u => cases u; simpa [h, except_ok_bind] using ih

theorem checkLoop_err (f : SRS) (l : List SRS) (e : PyErr) :
    List.foldlM (fun _ s => checkOne f s) () l = .error e →
      ∃ s ∈ l, checkOne f s = .error e := by
  induction l with
  | nil => intro h; exact absurd h (by simp [List.foldlM]; exact fun h => by cases h)
  | cons a t ih =>
    rw [List.foldlM_cons]
    cases h : checkOne f a with
    | error e' =>
      rw [except_error_bind]
      rintro he
      cases he
      exact ⟨a, by simp, h⟩
    | ok u =>
      cases u
      rw [except_ok_bind]
      intro hfold
      obtain ⟨s, hs, hse⟩ := ih hfold
      exact ⟨s, by simp [hs], hse⟩

theorem checkOne_err_kind (f s : SRS) (e : PyErr) (hf : f.freq_range ≠ [])
    (h : checkOne f s = .error e) :
    e = .runtime "mis-matched frequency axis" ∨
    e = .runtime "mis-matched frequency start" ∨
    e = .runtime "mis-matched frequency stop" := by
  unfold checkOne at h
  by_cases hl : s.freq_range.length = f.freq_range.length
  · have hs : s.freq_range ≠ [] := by
      intro hnil
      rw [hnil] at hl
      exact hf (List.length_eq_zero.mp hl.symm)
    rcases hsh : s.freq_range.head? with _ | a
    · exact absurd (List.head?_eq_none_iff.mp hsh) hs
    rcases hfh : f.freq_range.head? with _ | b
    · exact absurd (List.head?_eq_none_iff.mp hfh) hf
    rcases hsl : s.freq_range.getLast? with _ | c
    · exact absurd (List.getLast?_eq_none_iff.mp hsl) hs
    rcases hfl : f.freq_range.getLast? with _ | d
    · exact absurd (List.getLast?_eq_none_iff.mp hfl) hf
    simp only [hsh, hfh, hsl, hfl, hl,
      if_neg (by simp : ¬ (f.freq_range.length ≠ f.freq_range.length))] at h
    split_ifs at h <;> simp_all
  · rw [if_pos hl] at h
    cases h
    simp

/-- **C8.**  The combiner accepts its inputs exactly when every input's
frequency axis agrees with the first input's in length, in (existing)
first value and in (existing) last value — interior values are never
compared; any check failure propagates out of `combine_srs` before any
output is constructed; and whenever the first axis is non-empty, every
rejection is one of the three mis-matched-axis RuntimeErrors (the spec's
`IncompatibleAxis`). -/
theorem c8_theorem :
    (∀ (f : SRS) (rest : List SRS),
      checkFreq (f :: rest) = .ok () ↔
        ∃ a b, f.freq_range.head? = some a ∧ f.freq_range.getLast? = some b ∧
          ∀ s ∈ f :: rest,
            s.freq_range.length = f.freq_range.length ∧
            s.freq_range.head? = some a ∧ s.freq_range.getLast? = some b)
    ∧ (∀ (inputs : List SRS) (e : PyErr),
        checkFreq inputs = .error e → combine_srs inputs = .error e)
    ∧ (∀ (f : SRS) (rest : List SRS) (e : PyErr), f.freq_range ≠ [] →
        checkFreq (f :: rest) = .error e →
          e = .runtime "mis-matched frequency axis" ∨
          e = .runtime "mis-matched frequency start" ∨
          e = .runtime "mis-matched frequency stop") := by
  refine ⟨?_, ?_, ?_⟩
  · intro f rest
    unfold checkFreq
    rw [checkLoop_ok]
    constructor
    · intro h
      have hself := (checkOne_ok f f).mp (h f (by simp))
      obtain ⟨-, ⟨a, hfa, -⟩, ⟨b, hfb, -⟩⟩ := hself
      refine ⟨a, b, hfa, hfb, ?_⟩
      intro s hs
      obtain ⟨h1, ⟨a', ha1, ha2⟩, ⟨b', hb1, hb2⟩⟩ := (checkOne_ok f s).mp (h s hs)
      rw [hfa] at ha1
      rw [hfb] at hb1
      cases ha1
      cases hb1
      exact ⟨h1, ha2, hb2⟩
    · rintro ⟨a, b, hfa, hfb, hall⟩ s hs
      rw [checkOne_ok]
      obtain ⟨h1, h2, h3⟩ := hall s hs
      exact ⟨h1, ⟨a, hfa, h2⟩, ⟨b, hfb, h3⟩⟩
  · intro inputs e h
    cases inputs with
    | nil =>
      unfold checkFreq at h
      cases h
      rfl
    | cons f rest =>
      unfold combine_srs
      rw [h]
  · intro f rest e hf h
    unfold checkFreq at h
    obtain ⟨s, -, hse⟩ := checkLoop_err f (f :: rest) e h
    exact checkOne_err_kind f s e hf hse

/-- **C8, witness.**  `srsF` and `srsG` differ only at an interior
frequency and are accepted; `srsF` and `srsH` differ in the last
frequency and `combine_srs` fails with the mis-matched-stop RuntimeError
before building anything. -/
theorem c8_witness :
    checkFreq [srsF, srsG] = .ok () ∧
    combine_srs [srsF, srsH] = .error (.runtime "mis-matched frequency stop") := by
  constructor
  · exact (c8_theorem.1 srsF [srsG]).mpr ⟨10, 20, by decide, by decide, by decide⟩
  · exact c8_theorem.2.1 [srsF, srsH] _ (by decide)

/-! ### The rectifier reference site and single-site behaviour (C5, C6, C7) -/

theorem changeB_false_iff (x y : Val) :
    changeB x y = false ↔ ∃ v, x = some v ∧ y = some v := by
  cases x with
  | none => simp [changeB]
  | some a =>
    cases y with
    | none => simp [changeB]
    | some b =>
      simp only [changeB, decide_not, Bool.not_eq_false', decide_eq_true_eq,
        Option.some.injEq]
      constructor
      · rintro rfl; exact ⟨a, rfl, rfl⟩
      · rintro ⟨v, rfl, rfl⟩; rfl

theorem changes_getElem (ds : List Val) (j : ℕ) (x y : Val)
    (hx : ds[j]? = some x) (hy : ds[j+1]? = some y) :
    (changes ds)[j]? = some (changeB x y) := by
  unfold changes
  rw [List.getElem?_map]
  have hz : (ds.zip ds.tail)[j]? = some (x, y) := by
    rw [List.getElem?_zip_eq_some]
    exact ⟨hx, by simpa using hy⟩
  rw [hz]
  rfl

theorem changes_length (ds : List Val) :
    (changes ds).length = ds.length - 1 := by
  unfold changes
  simp [List.length_zip]

/-- **C6 (amended).**  The rectifier's reference site is the label AT the
first index where the consecutive difference of the raw label sequence is
nonzero (missing-data markers included: any difference involving NaN
counts as a change), i.e. the last row of the first run — not the label
immediately following the transition. -/
theorem c6_amended (ds : List Val) (i : ℕ) (a b : Val)
    (h1 : ds[i]? = some a) (h2 : ds[i + 1]? = some b) (h3 : changeB a b = true)
    (h4 : ∀ j, j < i → changeB (ds.getD j none) (ds.getD (j + 1) none) = false) :
    refLabel ds = some a := by
  have hi1 : i + 1 < ds.length := (List.getElem?_eq_some_iff.mp h2).1
  have hci : i < (changes ds).length := by rw [changes_length]; omega
  have hch : (changes ds)[i]? = some (changeB a b) := changes_getElem ds i a b h1 h2
  have hfind : (changes ds).findIdx? id = some i := by
    rw [List.findIdx?_eq_some_iff_getElem]
    refine ⟨hci, ?_, ?_⟩
    · rw [List.getElem?_eq_getElem hci] at hch
      simp only [id]
      rw [Option.some.inj hch, h3]
    · intro j hji
      have hj1 : j + 1 < ds.length := by omega
      have hj0 : j < ds.length := by omega
      have hx : ds[j]? = some ds[j] := List.getElem?_eq_getElem hj0
      have hy : ds[j + 1]? = some ds[j + 1] := List.getElem?_eq_getElem hj1
      have hcj : (changes ds)[j]? = some (changeB ds[j] ds[j + 1]) :=
        changes_getElem _ _ _ _ hx hy
      have hgd : changeB (ds.getD j none) (ds.getD (j + 1) none) = false := h4 j hji
      rw [List.getD_eq_getElem?_getD, List.getD_eq_getElem?_getD, hx, hy] at hgd
      simp only [Option.getD_some] at hgd
      have hcjlt : j < (changes ds).length := by rw [changes_length]; omega
      rw [List.getElem?_eq_getElem hcjlt] at hcj
      simp [Option.some.inj hcj, hgd]
  unfold refLabel firstChangeIdx
  rw [hfind]
  simpa using h1

/-- **C6, witness.**  On `[3, 3, 7, 7]` the first change is at index 1
and the reference is the label there, `3`. -/
theorem c6_witness :
    refLabel [some 3, some 3, some 7, some 7] = some (some 3) :=
  c6_amended [some 3, some 3, some 7, some 7] 1 (some 3) (some 7)
    (by decide) (by decide) (by decide) (by decide)
/-- **C5 (amended).**  If the source labels hold exactly one distinct
finite site tag `s` and the sequence does have a first change point whose
(pre-change) label is `s` itself — e.g. an interior missing-data gap —
then rectification succeeds, records the single adjustment `s ↦ 0.0`, and
returns the input's power matrix unchanged. -/
theorem c5_amended (srs : SRS) (ds : List Val) (s : ℚ)
    (h1 : srs.data_source = some ds)
    (h2 : uniqueSorted (ds.filterMap id) = [s])
    (h3 : refLabel ds = some (some s)) :
    rectify_combined srs = .ok ⟨srs.data, [(some s, some 0)], srs.data⟩ := by
  unfold rectify_combined
  rw [h1]
  simp only [h2, h3]
  rw [rectifyLoop.eq_def]
  simp

/-- **C5, witness.**  A single-site combined input with an interior
missing-data marker: adjustment `{4: 0.0}`, matrix unchanged. -/
theorem c5_witness :
    rectify_combined ⟨0, "", [], [], [[some 1], [some 2], [some 3]],
        some [some 4, none, some 4]⟩ =
      .ok ⟨[[some 1], [some 2], [some 3]], [(some 4, some 0)],
           [[some 1], [some 2], [some 3]]⟩ :=
  c5_amended _ [some 4, none, some 4] 4 rfl (by decide) (by decide)
/-- **C7 (amended).**  The after-run branch can never perform an
adjustment: (1) whenever the first row's label is finite it is the
reference site itself, so an unprocessed site's run always starts after
row 0 (the after-run `elif`, which would in fact raise `NameError` on the
undefined `data_sources`, is only reachable for a run starting at row 0);
(2) when the row before an unprocessed site's run belongs to a
not-yet-processed site the pass simply skips the site — there is no
symmetric after-run fallback. -/
theorem c7_amended :
    (∀ (ds : List Val) (s : ℚ) (r : Val),
        ds[0]? = some (some s) → refLabel ds = some r → r = some s)
    ∧ (∀ (ds : List Val) (s : ℚ) (st : RectSt) (i0 : ℕ) (rest : List ℕ),
        (some s : Val) ∉ st.processed →
        siteIndices ds s = i0 :: rest → 0 < i0 →
        ds.getD (i0 - 1) none ∉ st.processed →
        rectifySite ds s st = .ok st) := by
  constructor
  · intro ds s r h0 hr
    unfold refLabel firstChangeIdx at hr
    cases hfi : (changes ds).findIdx? id with
    | none => rw [hfi] at hr; cases hr
    | some i =>
      rw [hfi] at hr
      simp only [Option.some_bind] at hr
      obtain ⟨hlen, hpi, hbefore⟩ := List.findIdx?_eq_some_iff_getElem.mp hfi
      have hacl := changes_length ds
      have hall : ∀ j, j ≤ i → ds[j]? = some (some s) := by
        intro j
        induction j with
        | zero => intro _; exact h0
        | succ k ih =>
          intro hk
          have hk' : k < i := by omega
          have hks : ds[k]? = some (some s) := ih (by omega)
          have hkl : k < ds.length := (List.getElem?_eq_some_iff.mp hks).1
          have hk1 : k + 1 < ds.length := by omega
          have hcb : (changes ds)[k]? = some (changeB ds[k] ds[k + 1]) :=
            changes_getElem _ _ _ _ (List.getElem?_eq_getElem hkl)
              (List.getElem?_eq_getElem hk1)
          have hkc : k < (changes ds).length := by omega
          have hfalse : changeB ds[k] ds[k + 1] = false := by
            have hnb := hbefore k hk'
            rw [List.getElem?_eq_getElem hkc] at hcb
            rw [← Option.some.inj hcb]
            simpa using hnb
          obtain ⟨v, hv1, hv2⟩ := (changeB_false_iff _ _).mp hfalse
          have hds : ds[k] = some s := by
            rw [List.getElem?_eq_getElem hkl] at hks
            exact Option.some.inj hks
          rw [hds] at hv1
          have hvs : v = s := (Option.some.inj hv1).symm
          rw [List.getElem?_eq_getElem hk1, hv2, hvs]
      have hi := hall i (Nat.le_refl i)
      rw [hi] at hr
      exact (Option.some.inj hr).symm
  · intro ds s st i0 rest h1 h2 h3 h4
    unfold rectifySite
    rw [if_neg h1]
    simp only [h2]
    rw [if_pos h3, if_neg h4]

/-- **C7, witness (for the amended claim).**  Part 1 applied to a
concrete label sequence whose first row is finite, and part 2 applied to
a site whose run is preceded by an unprocessed site: the pass leaves the
state untouched. -/
theorem c7_witness :
    ((some (3 : ℚ) : Val) = some 3) ∧
    rectifySite [some 0, some 2, some 1, some 0] 1
        ⟨[[], [], [], []], [some 0], [(some 0, some 0)]⟩ =
      .ok ⟨[[], [], [], []], [some 0], [(some 0, some 0)]⟩ := by
  constructor
  · exact c7_amended.1 [some 3, some 3, some 1] 3 (some 3) (by decide) (by decide)
  · exact c7_amended.2 [some 0, some 2, some 1, some 0] 1 _ 2 [] (by decide)
      (by decide) (by decide) (by decide)

/-! ### The combiner grid (C1) -/

theorem foldl_min_mem (a : ℚ) (l : List ℚ) : l.foldl min a ∈ a :: l := by
  induction l generalizing a with
  | nil => simp
  | cons b t ih =>
    simp only [List.foldl_cons]
    rcases List.mem_cons.mp (ih (min a b)) with h | h
    · rcases min_choice a b with hm | hm <;> rw [hm] at h ⊢ <;> simp [h]
    · simp [h]

theorem foldl_min_le (a : ℚ) (l : List ℚ) :
    l.foldl min a ≤ a ∧ ∀ x ∈ l, l.foldl min a ≤ x := by
  induction l generalizing a with
  | nil => simp
  | cons b t ih =>
    simp only [List.foldl_cons]
    obtain ⟨h1, h2⟩ := ih (min a b)
    refine ⟨le_trans h1 (min_le_left a b), ?_⟩
    intro x hx
    rcases List.mem_cons.mp hx with rfl | hx
    · exact le_trans h1 (min_le_right a x)
    · exact h2 x hx

theorem foldl_max_mem (a : ℚ) (l : List ℚ) : l.foldl max a ∈ a :: l := by
  induction l generalizing a with
  | nil => simp
  | cons b t ih =>
    simp only [List.foldl_cons]
    rcases List.mem_cons.mp (ih (max a b)) with h | h
    · rcases max_choice a b with hm | hm <;> rw [hm] at h ⊢ <;> simp [h]
    · simp [h]

theorem foldl_max_ge (a : ℚ) (l : List ℚ) :
    a ≤ l.foldl max a ∧ ∀ x ∈ l, x ≤ l.foldl max a := by
  induction l generalizing a with
  | nil => simp
  | cons b t ih =>
    simp only [List.foldl_cons]
    obtain ⟨h1, h2⟩ := ih (max a b)
    refine ⟨le_trans (le_max_left a b) h1, ?_⟩
    intro x hx
    rcases List.mem_cons.mp hx with rfl | hx
    · exact le_trans (le_max_right a x) h1
    · exact h2 x hx

theorem srsPool_times (i : ℕ) (s : SRS) (ps : List PoolEntry)
    (hwf : s.time_range.length = s.data.length)
    (h : srsPool i s = .ok ps) :
    ps.map (fun e => e.2.1) = s.time_range := by
  unfold srsPool at h
  cases ht : s.time_range with
  | nil => rw [ht] at h; cases h
  | cons t ts =>
    rw [ht] at h
    cases h
    rw [List.map_map]
    have : ((fun e : PoolEntry => e.2.1) ∘ fun p : ℚ × List Val =>
        ((i : ℚ), p.1, 1 - |p.1 - (t :: ts).getD ((t :: ts).length / 2) 0| / 86400, p.2)) =
        Prod.fst := rfl
    rw [this, List.map_fst_zip]
    rw [← ht, hwf]

theorem mapM_pool_times (l : List (ℕ × SRS))
    (hwf : ∀ q ∈ l, q.2.time_range.length = q.2.data.length)
    (pools : List (List PoolEntry))
    (h : l.mapM (fun p => srsPool p.1 p.2) = .ok pools) :
    pools.map (fun ps => ps.map (fun e => e.2.1)) = l.map (fun q => q.2.time_range) := by
  induction l generalizing pools with
  | nil =>
    rw [List.mapM_nil] at h
    cases h
    simp
  | cons a t ih =>
    rw [List.mapM_cons] at h
    cases ha : srsPool a.1 a.2 with
    | error e => rw [ha, except_error_bind] at h; cases h
    | ok ps =>
      rw [ha, except_ok_bind] at h
      cases hrest : t.mapM (fun p => srsPool p.1 p.2) with
      | error e => rw [hrest, except_error_bind] at h; cases h
      | ok rest =>
        rw [hrest, except_ok_bind] at h
        cases h
        simp only [List.map_cons]
        rw [srsPool_times a.1 a.2 ps (hwf a (by simp)) ha]
        rw [ih (fun q hq => hwf q (by simp [hq])) rest hrest]

theorem enumFrom_times (k : ℕ) (l : List SRS) :
    (l.enumFrom k).map (fun q : ℕ × SRS => q.2.time_range) =
      l.map (fun s => s.time_range) := by
  induction l generalizing k with
  | nil => rfl
  | cons a t ih => simp [List.enumFrom, ih]

theorem buildPool_times (inputs : List SRS)
    (hwf : ∀ s ∈ inputs, s.time_range.length = s.data.length)
    (pool : List PoolEntry) (h : buildPool inputs = .ok pool) :
    pool.map (fun e => e.2.1) = allTimes inputs := by
  unfold buildPool at h
  cases hm : inputs.enum.mapM (fun p => srsPool p.1 p.2) with
  | error e => rw [hm, except_error_bind] at h; cases h
  | ok pools =>
    rw [hm, except_ok_bind] at h
    cases h
    unfold allTimes
    rw [List.map_flatten]
    rw [mapM_pool_times inputs.enum
      (fun q hq => hwf q.2 ((List.of_mem_zip (by
        rw [← List.enum_eq_zip_range]; exact hq)).2))
      pools hm]
    rw [List.enum]
    rw [enumFrom_times]
theorem better_cases (a b : PoolEntry) : better a b = a ∨ better a b = b := by
  unfold better
  split_ifs <;> simp

theorem pickBest_mem (e : PoolEntry) (l : List PoolEntry) : pickBest e l ∈ e :: l := by
  induction l generalizing e with
  | nil => simp [pickBest]
  | cons a t ih =>
    unfold pickBest at ih ⊢
    simp only [List.foldl_cons]
    rcases List.mem_cons.mp (ih (better e a)) with h | h
    · rcases better_cases e a with hb | hb <;> rw [hb] at h ⊢ <;> simp [h]
    · simp [h]

theorem combineStep_gap (pool : List PoolEntry) (rowLen : ℕ) (t0 : ℚ)
    (h : pool.filter (fun p => decide (|p.2.1 - t0| < 5)) = []) :
    combineStep pool rowLen t0 = (none, t0, List.replicate rowLen none) := by
  unfold combineStep
  simp only [h]

theorem combineStep_hit (pool : List PoolEntry) (rowLen : ℕ) (t0 : ℚ)
    (e : PoolEntry) (es : List PoolEntry)
    (h : pool.filter (fun p => decide (|p.2.1 - t0| < 5)) = e :: es) :
    combineStep pool rowLen t0 =
      (some (pickBest e es).1, (pickBest e es).2.1, (pickBest e es).2.2.2) ∧
    |(pickBest e es).2.1 - t0| < 5 := by
  constructor
  · unfold combineStep
    simp only [h]
  · have hmem : pickBest e es ∈ pool.filter (fun p => decide (|p.2.1 - t0| < 5)) := by
      rw [h]; exact pickBest_mem e es
    have := (List.mem_filter.mp hmem).2
    simpa using this

theorem getD_map_range {α : Type} (n k : ℕ) (f : ℕ → α) (d : α) (h : k < n) :
    ((List.range n).map f).getD k d = f k := by
  rw [List.getD_eq_getElem?_getD, List.getElem?_map, List.getElem?_range h]
  rfl
/-- **C1 (amended).**  For every non-empty collection of compatible
inputs, each holding at least one sample and satisfying the row-count
invariant, the combined output has exactly one row per step of the
uniform 10-second grid running from the global minimum to the global
maximum input timestamp: labels, time axis and power matrix all have
`⌊(tmax − tmin)/10⌋ + 1` entries, a gap row's timestamp is exactly its
grid time `tmin + 10 k`, and a matched row's timestamp is the selected
sample's own timestamp, within the open 5-second half-window of its grid
time (so the time axis is NOT uniformly gridded wherever a sample was
matched off-grid). -/
theorem c1_amended (inputs : List SRS) (c : SRS)
    (hwf : ∀ s ∈ inputs, s.time_range.length = s.data.length)
    (hok : combine_srs inputs = .ok c) :
    ∃ tmin tmax ls,
      tmin ∈ allTimes inputs ∧ (∀ u ∈ allTimes inputs, tmin ≤ u) ∧
      tmax ∈ allTimes inputs ∧ (∀ u ∈ allTimes inputs, u ≤ tmax) ∧
      c.data_source = some ls ∧
      c.time_range.length = (((tmax - tmin) / 10).floor).toNat + 1 ∧
      c.data.length = (((tmax - tmin) / 10).floor).toNat + 1 ∧
      ls.length = (((tmax - tmin) / 10).floor).toNat + 1 ∧
      (∀ k, k < ls.length →
        (ls.getD k none = none → c.time_range.getD k 0 = tmin + 10 * k) ∧
        (ls.getD k none ≠ none →
          |c.time_range.getD k 0 - (tmin + 10 * k)| < 5)) := by
  unfold combine_srs at hok
  cases inputs with
  | nil => cases hok
  | cons first rest =>
    cases hc : checkFreq (first :: rest) with
    | error e =>
      simp only [hc] at hok
      cases hok
    | ok u =>
      cases u
      simp only [hc] at hok
      cases hb : buildPool (first :: rest) with
      | error e =>
        simp only [hb] at hok
        cases hok
      | ok pool =>
        simp only [hb] at hok
        cases hpool : pool with
        | nil =>
          simp only [hpool] at hok
          cases hok
        | cons p ps =>
          simp only [hpool] at hok
          have hT : pool.map (fun e => e.2.1) = allTimes (first :: rest) :=
            buildPool_times (first :: rest) hwf pool hb
          rw [hpool, List.map_cons] at hT
          set tmin := (ps.map (fun q => q.2.1)).foldl min p.2.1 with htmin
          set tmax := (ps.map (fun q => q.2.1)).foldl max p.2.1 with htmax
          set n := (((tmax - tmin) / 10).floor).toNat + 1 with hn
          have hcc : c = ⟨combinedSiteId (first :: rest),
              String.intercalate "+" ((first :: rest).map (fun s => s.site)),
              first.freq_range,
              ((List.range n).map fun (k : ℕ) =>
                combineStep (p :: ps) p.2.2.2.length (tmin + 10 * (k : ℚ))).map
                (fun st => st.2.1),
              ((List.range n).map fun (k : ℕ) =>
                combineStep (p :: ps) p.2.2.2.length (tmin + 10 * (k : ℚ))).map
                (fun st => st.2.2),
              some (((List.range n).map fun (k : ℕ) =>
                combineStep (p :: ps) p.2.2.2.length (tmin + 10 * (k : ℚ))).map
                (fun st => st.1))⟩ := by
            cases hok
            rfl
          subst hcc
          refine ⟨tmin, tmax,
            ((List.range n).map fun (k : ℕ) =>
              combineStep (p :: ps) p.2.2.2.length (tmin + 10 * (k : ℚ))).map
              (fun st => st.1), ?_, ?_, ?_, ?_, rfl, ?_, ?_, ?_, ?_⟩
          · rw [← hT]
            exact foldl_min_mem p.2.1 (ps.map (fun q => q.2.1))
          · intro u hu
            rw [← hT] at hu
            rcases List.mem_cons.mp hu with rfl | hu
            · exact (foldl_min_le p.2.1 (ps.map (fun q => q.2.1))).1
            · exact (foldl_min_le p.2.1 (ps.map (fun q => q.2.1))).2 u hu
          · rw [← hT]
            exact foldl_max_mem p.2.1 (ps.map (fun q => q.2.1))
          · intro u hu
            rw [← hT] at hu
            rcases List.mem_cons.mp hu with rfl | hu
            · exact (foldl_max_ge p.2.1 (ps.map (fun q => q.2.1))).1
            · exact (foldl_max_ge p.2.1 (ps.map (fun q => q.2.1))).2 u hu
          · simp
          · simp
          · simp
          · intro k hk
            simp only [List.length_map, List.length_range] at hk
            simp only [List.map_map]
            rw [getD_map_range n k _ none hk, getD_map_range n k _ 0 hk]
            cases hf : (p :: ps).filter
                (fun q => decide (|q.2.1 - (tmin + 10 * k)| < 5)) with
            | nil =>
              have hstep := combineStep_gap (p :: ps) p.2.2.2.length
                (tmin + 10 * k) hf
              constructor
              · intro _
                simp [Function.comp, hstep]
              · intro hne
                exact absurd (by simp [Function.comp, hstep]) hne
            | cons e es =>
              have hstep := combineStep_hit (p :: ps) p.2.2.2.length
                (tmin + 10 * k) e es hf
              constructor
              · intro hnone
                simp [Function.comp_apply, hstep.1] at hnone
              · intro _
                simp only [Function.comp_apply, hstep.1]
                exact hstep.2

/-- **C1, witness.**  The amended claim applied to the single-input
collection `[c1ex]`. -/
theorem c1_witness :
    (∀ s ∈ [c1ex], s.time_range.length = s.data.length) ∧
    combine_srs [c1ex] = .ok c1out ∧
    (∃ tmin tmax ls,
      tmin ∈ allTimes [c1ex] ∧ (∀ u ∈ allTimes [c1ex], tmin ≤ u) ∧
      tmax ∈ allTimes [c1ex] ∧ (∀ u ∈ allTimes [c1ex], u ≤ tmax) ∧
      c1out.data_source = some ls ∧
      c1out.time_range.length = (((tmax - tmin) / 10).floor).toNat + 1 ∧
      c1out.data.length = (((tmax - tmin) / 10).floor).toNat + 1 ∧
      ls.length = (((tmax - tmin) / 10).floor).toNat + 1 ∧
      (∀ k, k < ls.length →
        (ls.getD k none = none → c1out.time_range.getD k 0 = tmin + 10 * k) ∧
        (ls.getD k none ≠ none →
          |c1out.time_range.getD k 0 - (tmin + 10 * k)| < 5))) :=
  ⟨by decide, by decide, c1_amended [c1ex] c1out (by decide) (by decide)⟩

/-! ### The frame decoder (C3, C4) -/

theorem headerFreq_length (h : Header) : (headerFreq h).length = 802 := by
  unfold headerFreq linspace401
  simp only [List.length_map, List.length_append, List.length_range]

theorem recordRow_length (h : Header) (d0 d1 : List ℕ) :
    (recordRow h d0 d1).length = d0.length + d1.length := by
  unfold recordRow
  simp only [List.length_append, List.length_map]

theorem decodeLoop_cons (r rest : List ℕ) (fr : Frozen)
    (hlen : r.length = 826) (hval : validDate (parseHeader (r.take 24)))
    (hfr : fr.2.2.length = 802) :
    decodeLoop (r ++ rest) (some fr) =
      match decodeLoop rest (some fr) with
      | .error e => .error e
      | .ok (rows, fz) =>
        .ok ((unixTime (parseHeader (r.take 24)),
              recordRow (parseHeader (r.take 24)) ((r.drop 24).take 401)
                ((r.drop 24).drop 401)) :: rows, fz) := by
  conv_lhs => rw [decodeLoop.eq_def]
  have h1 : ¬ (r ++ rest).length < 24 := by
    simp only [List.length_append, hlen]; omega
  have h2 : (r ++ rest).take 24 = r.take 24 := by
    rw [List.take_append_eq_append_take]
    simp only [hlen]
    norm_num
  have h3 : (r ++ rest).drop 24 = r.drop 24 ++ rest := by
    rw [List.drop_append_eq_append_drop]
    simp only [hlen]
    norm_num
  have hd24 : (r.drop 24).length = 802 := by
    simp only [List.length_drop, hlen]
  have h4 : ¬ (r.drop 24 ++ rest).length < 401 := by
    simp only [List.length_append, hd24]; omega
  have h5 : (r.drop 24 ++ rest).take 401 = (r.drop 24).take 401 := by
    rw [List.take_append_eq_append_take]
    simp only [hd24]
    norm_num
  have h6 : (r.drop 24 ++ rest).drop 401 = (r.drop 24).drop 401 ++ rest := by
    rw [List.drop_append_eq_append_drop]
    simp only [hd24]
    norm_num
  have hd401 : ((r.drop 24).drop 401).length = 401 := by
    simp only [List.length_drop, hlen]
  have h7 : ¬ ((r.drop 24).drop 401 ++ rest).length < 401 := by
    simp only [List.length_append, hd401]; omega
  have h8 : ((r.drop 24).drop 401 ++ rest).take 401 = (r.drop 24).drop 401 :=
    List.take_left' hd401
  have h9 : ((r.drop 24).drop 401 ++ rest).drop 401 = rest :=
    List.drop_left' hd401
  have hrowlen : (recordRow (parseHeader (r.take 24)) ((r.drop 24).take 401)
      ((r.drop 24).drop 401)).length = fr.2.2.length := by
    rw [recordRow_length, hfr]
    have h10 : ((r.drop 24).take 401).length = 401 := by
      rw [List.length_take, hd24]
      omega
    rw [h10, hd401]
  have hneg : ¬ ((recordRow (parseHeader (r.take 24)) ((r.drop 24).take 401)
      ((r.drop 24).drop 401)).length ≠ fr.2.2.length) := by
    rw [hrowlen]
    exact fun h => h rfl
  simp only [h1, dif_neg, not_false_iff, h2, h3, h4, h5, h6, h7, h8, h9,
    if_pos hval, if_neg hneg, if_false]
theorem decodeLoop_first (r rest : List ℕ) (nm : String)
    (hlen : r.length = 826) (hval : validDate (parseHeader (r.take 24)))
    (hsite : siteName (parseHeader (r.take 24)).siteId = some nm) :
    decodeLoop (r ++ rest) none =
      match decodeLoop rest (some ((parseHeader (r.take 24)).siteId, nm,
          headerFreq (parseHeader (r.take 24)))) with
      | .error e => .error e
      | .ok (rows, fz) =>
        .ok ((unixTime (parseHeader (r.take 24)),
              recordRow (parseHeader (r.take 24)) ((r.drop 24).take 401)
                ((r.drop 24).drop 401)) :: rows, fz) := by
  conv_lhs => rw [decodeLoop.eq_def]
  have h1 : ¬ (r ++ rest).length < 24 := by
    simp only [List.length_append, hlen]; omega
  have h2 : (r ++ rest).take 24 = r.take 24 := by
    rw [List.take_append_eq_append_take]
    simp only [hlen]
    norm_num
  have h3 : (r ++ rest).drop 24 = r.drop 24 ++ rest := by
    rw [List.drop_append_eq_append_drop]
    simp only [hlen]
    norm_num
  have hd24 : (r.drop 24).length = 802 := by
    simp only [List.length_drop, hlen]
  have h4 : ¬ (r.drop 24 ++ rest).length < 401 := by
    simp only [List.length_append, hd24]; omega
  have h5 : (r.drop 24 ++ rest).take 401 = (r.drop 24).take 401 := by
    rw [List.take_append_eq_append_take]
    simp only [hd24]
    norm_num
  have h6 : (r.drop 24 ++ rest).drop 401 = (r.drop 24).drop 401 ++ rest := by
    rw [List.drop_append_eq_append_drop]
    simp only [hd24]
    norm_num
  have hd401 : ((r.drop 24).drop 401).length = 401 := by
    simp only [List.length_drop, hlen]
  have h7 : ¬ ((r.drop 24).drop 401 ++ rest).length < 401 := by
    simp only [List.length_append, hd401]; omega
  have h8 : ((r.drop 24).drop 401 ++ rest).take 401 = (r.drop 24).drop 401 :=
    List.take_left' hd401
  have h9 : ((r.drop 24).drop 401 ++ rest).drop 401 = rest :=
    List.drop_left' hd401
  have hrowlen : (recordRow (parseHeader (r.take 24)) ((r.drop 24).take 401)
      ((r.drop 24).drop 401)).length =
      (headerFreq (parseHeader (r.take 24))).length := by
    rw [recordRow_length, headerFreq_length]
    have h10 : ((r.drop 24).take 401).length = 401 := by
      rw [List.length_take, hd24]
      omega
    rw [h10, hd401]
  have hneg : ¬ ((recordRow (parseHeader (r.take 24)) ((r.drop 24).take 401)
      ((r.drop 24).drop 401)).length ≠
      (headerFreq (parseHeader (r.take 24))).length) := by
    rw [hrowlen]
    exact fun h => h rfl
  simp only [h1, dif_neg, not_false_iff, h2, h3, h4, h5, h6, h7, h8, h9,
    hsite, if_pos hval, if_neg hneg, if_false]

theorem decodeLoop_short (tail : List ℕ) (fr : Frozen)
    (htail : tail.length < 826)
    (htval : 24 ≤ tail.length → validDate (parseHeader (tail.take 24))) :
    decodeLoop tail (some fr) = .ok ([], some fr) := by
  rw [decodeLoop.eq_def]
  by_cases h24 : tail.length < 24
  · simp only [h24, dif_pos]
  · have hval := htval (by omega)
    have h401 : (tail.drop 24).length < 401 ∨
        ¬ (tail.drop 24).length < 401 ∧ ((tail.drop 24).drop 401).length < 401 := by
      simp only [List.length_drop]
      omega
    rcases h401 with h | ⟨h, h'⟩
    · simp only [h24, dif_neg, not_false_iff, if_pos hval, h, if_pos]
    · simp only [h24, dif_neg, not_false_iff, if_pos hval, h, if_neg, h',
        if_pos, if_false]
theorem decodeLoop_concat (recs : List (List ℕ)) (tail : List ℕ) (fr : Frozen)
    (hfr : fr.2.2.length = 802)
    (hrecs : ∀ r ∈ recs, validRecord r)
    (htail : tail.length < 826)
    (htval : 24 ≤ tail.length → validDate (parseHeader (tail.take 24))) :
    ∃ rows, decodeLoop (recs.flatten ++ tail) (some fr) = .ok (rows, some fr) ∧
      rows.length = recs.length := by
  induction recs with
  | nil =>
    refine ⟨[], ?_, rfl⟩
    simp only [List.flatten_nil, List.nil_append]
    exact decodeLoop_short tail fr htail htval
  | cons r rs ih =>
    obtain ⟨hlen, hval⟩ := hrecs r (by simp)
    obtain ⟨rows', hrows', hlen'⟩ := ih (fun q hq => hrecs q (by simp [hq]))
    refine ⟨(unixTime (parseHeader (r.take 24)),
        recordRow (parseHeader (r.take 24)) ((r.drop 24).take 401)
          ((r.drop 24).drop 401)) :: rows', ?_, by simp [hlen']⟩
    have : (r :: rs).flatten ++ tail = r ++ (rs.flatten ++ tail) := by
      simp [List.flatten_cons, List.append_assoc]
    rw [this, decodeLoop_cons r (rs.flatten ++ tail) fr hlen hval hfr, hrows']

theorem decodeLoop_none_short (tail : List ℕ)
    (htail : tail.length < 826)
    (htval : 24 ≤ tail.length → validDate (parseHeader (tail.take 24)))
    (htsite : 24 ≤ tail.length →
      (siteName (parseHeader (tail.take 24)).siteId).isSome = true) :
    ∃ fz, decodeLoop tail none = .ok ([], fz) := by
  rw [decodeLoop.eq_def]
  by_cases h24 : tail.length < 24
  · exact ⟨none, by simp only [h24, dif_pos]⟩
  · have hval := htval (by omega)
    obtain ⟨nm, hnm⟩ := Option.isSome_iff_exists.mp (htsite (by omega))
    have h401 : (tail.drop 24).length < 401 ∨
        ¬ (tail.drop 24).length < 401 ∧ ((tail.drop 24).drop 401).length < 401 := by
      simp only [List.length_drop]
      omega
    refine ⟨some ((parseHeader (tail.take 24)).siteId, nm,
      headerFreq (parseHeader (tail.take 24))), ?_⟩
    rcases h401 with h | ⟨h, h'⟩
    · simp only [h24, dif_neg, not_false_iff, hnm, if_pos hval, h, if_pos]
    · simp only [h24, dif_neg, not_false_iff, hnm, if_pos hval, h, if_neg, h',
        if_pos, if_false]

/-- **C3 (amended).**  The record size is 826 bytes (24-byte header plus
two 401-byte payload blocks), not 1226.  For every stream made of N full
826-byte records with `datetime`-valid headers (and a known site id in
the first record), optionally followed by a truncated record (fewer than
826 further bytes, with a valid header whenever the full 24 header bytes
are present), decoding terminates normally and yields exactly N rows —
no partial row, no error. -/
theorem c3_amended (recs : List (List ℕ)) (tail : List ℕ)
    (hrecs : ∀ r ∈ recs, validRecord r)
    (hsite : ∀ r ∈ recs.take 1,
      (siteName (parseHeader (r.take 24)).siteId).isSome = true)
    (htail : tail.length < 826)
    (htval : 24 ≤ tail.length → validDate (parseHeader (tail.take 24)))
    (htsite : recs = [] → 24 ≤ tail.length →
      (siteName (parseHeader (tail.take 24)).siteId).isSome = true) :
    ∃ s, from_file (recs.flatten ++ tail) = .ok s ∧
      s.time_range.length = recs.length ∧ s.data.length = recs.length := by
  cases recs with
  | nil =>
    obtain ⟨fz, hfz⟩ := decodeLoop_none_short tail htail htval (htsite rfl)
    simp only [List.flatten_nil, List.nil_append, List.length_nil]
    unfold from_file
    rw [hfz]
    cases fz with
    | none => exact ⟨initSRS, rfl, rfl, rfl⟩
    | some fr => exact ⟨⟨fr.1, fr.2.1, fr.2.2, [], [], none⟩, rfl, rfl, rfl⟩
  | cons r rs =>
    obtain ⟨hlen, hval⟩ := hrecs r (by simp)
    obtain ⟨nm, hnm⟩ := Option.isSome_iff_exists.mp (hsite r (by simp))
    obtain ⟨rows', hrows', hlen'⟩ := decodeLoop_concat rs tail
      ((parseHeader (r.take 24)).siteId, nm, headerFreq (parseHeader (r.take 24)))
      (headerFreq_length _) (fun q hq => hrecs q (by simp [hq])) htail htval
    have hsplit : (r :: rs).flatten ++ tail = r ++ (rs.flatten ++ tail) := by
      simp [List.flatten_cons, List.append_assoc]
    unfold from_file
    rw [hsplit, decodeLoop_first r (rs.flatten ++ tail) nm hlen hval hnm, hrows']
    refine ⟨_, rfl, ?_, ?_⟩
    · simp [hlen']
    · simp [hlen']
theorem exRec_take24 : exRec.take 24 = exHdr := by
  unfold exRec
  exact List.take_left' (by decide)

theorem exRec_length : exRec.length = 826 := by
  unfold exRec
  rw [List.length_append, List.length_replicate]
  norm_num [exHdr]

theorem validRecord_exRec : validRecord exRec := by
  constructor
  · exact exRec_length
  · rw [exRec_take24]
    decide

theorem tail374_take24 : (exHdr ++ List.replicate 350 0).take 24 = exHdr :=
  List.take_left' (by decide)

/-- **C3, counterexample.**  A stream of exactly 3 × 1226 = 3678 bytes —
four full 826-byte records and a truncated fifth — decodes to 4 rows,
not the 3 the claimed 1226-byte record size predicts. -/
theorem c3_counterexample :
    c3stream.length = 3 * 1226 ∧
    (from_file c3stream).map (fun s => s.time_range.length) = .ok 4 ∧
    (4 : ℕ) ≠ 3 := by
  refine ⟨?_, ?_, by decide⟩
  · show (exRec ++ exRec ++ exRec ++ exRec ++ exHdr ++ List.replicate 350 0).length = 3 * 1226
    simp only [List.length_append, List.length_replicate, exRec_length]
    norm_num [exHdr]
  · have hsplit : c3stream =
        List.flatten [exRec, exRec, exRec, exRec] ++ (exHdr ++ List.replicate 350 0) := by
      show exRec ++ exRec ++ exRec ++ exRec ++ exHdr ++ List.replicate 350 0 = _
      simp [List.flatten, List.append_assoc]
    obtain ⟨s, hs, hlen, -⟩ := c3_amended [exRec, exRec, exRec, exRec]
      (exHdr ++ List.replicate 350 0)
      (by
        intro r hr
        simp only [List.mem_cons, List.not_mem_nil, or_false] at hr
        rcases hr with rfl | rfl | rfl | rfl <;> exact validRecord_exRec)
      (by
        intro r hr
        simp only [List.take_succ_cons, List.take_zero, List.mem_cons,
          List.not_mem_nil, or_false] at hr
        rw [hr, exRec_take24]
        decide)
      (by
        rw [List.length_append, List.length_replicate]
        norm_num [exHdr])
      (by
        intro _
        rw [tail374_take24]
        decide)
      (by intro h; cases h)
    rw [hsplit, hs]
    show Except.ok s.time_range.length = Except.ok 4
    rw [hlen]
    rfl

/-- **C3, witness.**  One full record and no tail: exactly one row. -/
theorem c3_witness :
    (∀ r ∈ [exRec], validRecord r) ∧
    (∃ s, from_file (List.flatten [exRec] ++ []) = .ok s ∧
      s.time_range.length = 1 ∧ s.data.length = 1) :=
  ⟨fun r hr => by
      simp only [List.mem_cons, List.not_mem_nil, or_false] at hr
      rw [hr]
      exact validRecord_exRec,
   c3_amended [exRec] []
     (fun r hr => by
        simp only [List.mem_cons, List.not_mem_nil, or_false] at hr
        rw [hr]
        exact validRecord_exRec)
     (fun r hr => by
        simp only [List.take_succ_cons, List.take_zero, List.mem_cons,
          List.not_mem_nil, or_false] at hr
        rw [hr, exRec_take24]
        decide)
     (by norm_num)
     (fun h => by rw [List.length_nil] at h; omega)
     (fun h => by cases h)⟩
theorem decodeLoop_frozen (fr : Frozen) :
    ∀ (n : ℕ) (bytes : List ℕ), bytes.length ≤ n → ∀ rows fz,
      decodeLoop bytes (some fr) = .ok (rows, fz) → fz = some fr := by
  intro n
  induction n with
  | zero =>
    intro bytes hb rows fz h
    rw [decodeLoop.eq_def] at h
    have h24 : bytes.length < 24 := by omega
    simp only [h24, dif_pos] at h
    cases h
    rfl
  | succ n ihn =>
    intro bytes hb rows fz h
    rw [decodeLoop.eq_def] at h
    by_cases h24 : bytes.length < 24
    · simp only [h24, dif_pos] at h
      cases h
      rfl
    · simp only [h24, dif_neg, not_false_iff] at h
      by_cases hv : validDate (parseHeader (bytes.take 24))
      · rw [if_pos hv] at h
        by_cases ht1 : (bytes.drop 24).length < 401
        · rw [if_pos ht1] at h
          cases h
          rfl
        · rw [if_neg ht1] at h
          by_cases ht2 : ((bytes.drop 24).drop 401).length < 401
          · rw [if_pos ht2] at h
            cases h
            rfl
          · rw [if_neg ht2] at h
            by_cases hrow : (recordRow (parseHeader (bytes.take 24))
                ((bytes.drop 24).take 401) (((bytes.drop 24).drop 401).take 401)).length ≠
                fr.2.2.length
            · rw [if_pos hrow] at h
              cases h
            · rw [if_neg hrow] at h
              cases hrec : decodeLoop (((bytes.drop 24).drop 401).drop 401) (some fr) with
              | error e => rw [hrec] at h; cases h
              | ok p =>
                rw [hrec] at h
                obtain ⟨rows', fz'⟩ := p
                cases h
                exact ihn (((bytes.drop 24).drop 401).drop 401)
                  (by simp only [List.length_drop]; omega) _ _ hrec
      · rw [if_neg hv] at h
        cases h
theorem from_file_freq (bytes : List ℕ) (s : SRS)
    (hok : from_file bytes = .ok s) (hne : s.time_range ≠ []) :
    s.freq_range = headerFreq (parseHeader (bytes.take 24)) := by
  unfold from_file at hok
  cases hd : decodeLoop bytes none with
  | error e => rw [hd] at hok; cases hok
  | ok p =>
    obtain ⟨rows, fz⟩ := p
    rw [hd] at hok
    cases fz with
    | none =>
      cases hok
      exact absurd rfl hne
    | some fr =>
      rw [decodeLoop.eq_def] at hd
      by_cases h24 : bytes.length < 24
      · simp only [h24, dif_pos] at hd
        cases hd
      · simp only [h24, dif_neg, not_false_iff] at hd
        cases hsn : siteName (parseHeader (bytes.take 24)).siteId with
        | none =>
          simp only [hsn] at hd
          cases hd
        | some nm =>
          simp only [hsn] at hd
          by_cases hv : validDate (parseHeader (bytes.take 24))
          · rw [if_pos hv] at hd
            by_cases ht1 : (bytes.drop 24).length < 401
            · rw [if_pos ht1] at hd
              cases hd
              cases hok
              exact absurd rfl hne
            · rw [if_neg ht1] at hd
              by_cases ht2 : ((bytes.drop 24).drop 401).length < 401
              · rw [if_pos ht2] at hd
                cases hd
                cases hok
                exact absurd rfl hne
              · rw [if_neg ht2] at hd
                by_cases hrow : (recordRow (parseHeader (bytes.take 24))
                    ((bytes.drop 24).take 401)
                    (((bytes.drop 24).drop 401).take 401)).length ≠
                    (headerFreq (parseHeader (bytes.take 24))).length
                · rw [if_pos hrow] at hd
                  cases hd
                · rw [if_neg hrow] at hd
                  cases hrec : decodeLoop (((bytes.drop 24).drop 401).drop 401)
                      (some ((parseHeader (bytes.take 24)).siteId, nm,
                        headerFreq (parseHeader (bytes.take 24)))) with
                  | error e => rw [hrec] at hd; cases hd
                  | ok q =>
                    rw [hrec] at hd
                    obtain ⟨rows', fz'⟩ := q
                    cases hd
                    have hfz := decodeLoop_frozen
                      ((parseHeader (bytes.take 24)).siteId, nm,
                        headerFreq (parseHeader (bytes.take 24)))
                      (((bytes.drop 24).drop 401).drop 401).length
                      (((bytes.drop 24).drop 401).drop 401) (le_refl _) _ _ hrec
                    cases hfz
                    cases hok
                    rfl
          · rw [if_neg hv] at hd
            cases hd
theorem linspace401_getElem (a b : ℚ) (k : ℕ) (hk : k < 401) :
    (linspace401 a b)[k]? = some (a + (k : ℚ) * (b - a) / 400) := by
  unfold linspace401
  rw [List.getElem?_map, List.getElem?_range hk]
  rfl

theorem linspace401_length (a b : ℚ) : (linspace401 a b).length = 401 := by
  unfold linspace401
  simp

theorem headerFreq_getD_left (h : Header) (k : ℕ) (hk : k < 401) :
    (headerFreq h).getD k 0 =
      ((h.f1B : ℚ) + (k : ℚ) * ((h.f1E : ℚ) - h.f1B) / 400) * 1000000 := by
  unfold headerFreq
  rw [List.getD_eq_getElem?_getD, List.getElem?_map,
    List.getElem?_append_left (by rw [linspace401_length]; exact hk),
    linspace401_getElem _ _ k hk]
  rfl

theorem headerFreq_getD_right (h : Header) (k : ℕ) (h1 : 401 ≤ k) (h2 : k < 802) :
    (headerFreq h).getD k 0 =
      ((h.f2B : ℚ) + ((k - 401 : ℕ) : ℚ) * ((h.f2E : ℚ) - h.f2B) / 400) * 1000000 := by
  unfold headerFreq
  rw [List.getD_eq_getElem?_getD, List.getElem?_map,
    List.getElem?_append_right (by rw [linspace401_length]; exact h1),
    linspace401_length, linspace401_getElem _ _ (k - 401) (by omega)]
  rfl

theorem linspace401_pairwise (a b : ℚ) (hab : a < b) :
    (linspace401 a b).Pairwise (· < ·) := by
  unfold linspace401
  rw [List.pairwise_map]
  have hd : (0 : ℚ) < (b - a) / 400 := div_pos (sub_pos.mpr hab) (by norm_num)
  refine (List.pairwise_lt_range 401).imp ?_
  intro i j hij
  have hij' : (i : ℚ) < j := by exact_mod_cast hij
  have h2 : (i : ℚ) * (b - a) / 400 < (j : ℚ) * (b - a) / 400 := by
    rw [mul_div_assoc, mul_div_assoc]
    exact mul_lt_mul_of_pos_right hij' hd
  exact add_lt_add_left h2 a

theorem linspace401_mem_bounds (a b : ℚ) (hab : a ≤ b) (x : ℚ)
    (hx : x ∈ linspace401 a b) : a ≤ x ∧ x ≤ b := by
  unfold linspace401 at hx
  rw [List.mem_map] at hx
  obtain ⟨i, hi, rfl⟩ := hx
  have hi' : (i : ℚ) ≤ 400 := by
    rw [List.mem_range] at hi
    exact_mod_cast Nat.le_of_lt_succ hi
  have hba : (0 : ℚ) ≤ b - a := sub_nonneg.mpr hab
  constructor
  · have h0 : (0 : ℚ) ≤ (i : ℚ) * (b - a) / 400 := by
      apply div_nonneg _ (by norm_num)
      exact mul_nonneg (Nat.cast_nonneg i) hba
    linarith
  · have hle : (i : ℚ) * (b - a) / 400 ≤ b - a := by
      rw [div_le_iff₀ (by norm_num : (0 : ℚ) < 400)]
      nlinarith
    linarith

theorem headerFreq_pairwise (h : Header)
    (h1 : (h.f1B : ℚ) < h.f1E) (h2 : (h.f2B : ℚ) < h.f2E)
    (h3 : (h.f1E : ℚ) < h.f2B) :
    (headerFreq h).Pairwise (· < ·) := by
  unfold headerFreq
  rw [List.pairwise_map, List.pairwise_append]
  have hscale : ∀ x y : ℚ, x < y → x * 1000000 < y * 1000000 :=
    fun x y hxy => mul_lt_mul_of_pos_right hxy (by norm_num)
  refine ⟨(linspace401_pairwise _ _ h1).imp (fun hxy => hscale _ _ hxy),
    (linspace401_pairwise _ _ h2).imp (fun hxy => hscale _ _ hxy), ?_⟩
  intro x hx y hy
  have hxb := (linspace401_mem_bounds _ _ (le_of_lt h1) x hx).2
  have hyb := (linspace401_mem_bounds _ _ (le_of_lt h2) y hy).1
  exact hscale x y (by linarith)
/-- **C4 (amended).**  For every successfully decoded stream with at
least one record, the frequency axis is the first header's two 401-point
inclusive linear sweeps concatenated (802 entries), in Hz (each header
MHz value scaled by 1e6): entries 0, 400, 401 and 801 are exactly
`f1B`, `f1E`, `f2B` and `f2E` MHz.  It is strictly increasing only under
the extra conditions `f1B < f1E`, `f2B < f2E` and `f1E < f2B`; adjacent
bands that share the boundary frequency (the standard 25-75 / 75-180 MHz
layout) repeat that frequency, so the axis is not strictly increasing in
general. -/
theorem c4_amended (bytes : List ℕ) (s : SRS)
    (hok : from_file bytes = .ok s) (hne : s.time_range ≠ []) :
    s.freq_range = headerFreq (parseHeader (bytes.take 24)) ∧
    s.freq_range.length = 802 ∧
    s.freq_range.getD 0 0 = ((parseHeader (bytes.take 24)).f1B : ℚ) * 1000000 ∧
    s.freq_range.getD 400 0 = ((parseHeader (bytes.take 24)).f1E : ℚ) * 1000000 ∧
    s.freq_range.getD 401 0 = ((parseHeader (bytes.take 24)).f2B : ℚ) * 1000000 ∧
    s.freq_range.getD 801 0 = ((parseHeader (bytes.take 24)).f2E : ℚ) * 1000000 ∧
    (((parseHeader (bytes.take 24)).f1B < (parseHeader (bytes.take 24)).f1E ∧
      (parseHeader (bytes.take 24)).f2B < (parseHeader (bytes.take 24)).f2E ∧
      (parseHeader (bytes.take 24)).f1E < (parseHeader (bytes.take 24)).f2B) →
      s.freq_range.Pairwise (· < ·)) := by
  have hfreq := from_file_freq bytes s hok hne
  refine ⟨hfreq, ?_, ?_, ?_, ?_, ?_, ?_⟩
  · rw [hfreq]
    exact headerFreq_length _
  · rw [hfreq, headerFreq_getD_left _ 0 (by norm_num)]
    norm_num
  · rw [hfreq, headerFreq_getD_left _ 400 (by norm_num)]
    have : ((parseHeader (bytes.take 24)).f1B : ℚ) +
        400 * (((parseHeader (bytes.take 24)).f1E : ℚ) -
          (parseHeader (bytes.take 24)).f1B) / 400 =
        (parseHeader (bytes.take 24)).f1E := by ring
    rw [show ((400 : ℕ) : ℚ) = 400 from by norm_num, this]
  · rw [hfreq, headerFreq_getD_right _ 401 (by norm_num) (by norm_num)]
    norm_num
  · rw [hfreq, headerFreq_getD_right _ 801 (by norm_num) (by norm_num)]
    have : ((parseHeader (bytes.take 24)).f2B : ℚ) +
        400 * (((parseHeader (bytes.take 24)).f2E : ℚ) -
          (parseHeader (bytes.take 24)).f2B) / 400 =
        (parseHeader (bytes.take 24)).f2E := by ring
    rw [show (((801 - 401 : ℕ)) : ℚ) = 400 from by norm_num, this]
  · rintro ⟨ha, hb, hc⟩
    rw [hfreq]
    exact headerFreq_pairwise _ (by exact_mod_cast ha) (by exact_mod_cast hb)
      (by exact_mod_cast hc)
theorem from_file_exRec :
    from_file exRec = .ok ⟨(parseHeader (exRec.take 24)).siteId, "Palehau",
      headerFreq (parseHeader (exRec.take 24)),
      [((unixTime (parseHeader (exRec.take 24)) : ℤ) : ℚ)],
      [recordRow (parseHeader (exRec.take 24)) ((exRec.drop 24).take 401)
        ((exRec.drop 24).drop 401)], none⟩ := by
  have hsite : siteName (parseHeader (exRec.take 24)).siteId = some "Palehau" := by
    rw [exRec_take24]
    decide
  have hval : validDate (parseHeader (exRec.take 24)) := by
    rw [exRec_take24]
    decide
  have hstep := decodeLoop_first exRec [] "Palehau" exRec_length hval hsite
  have hbase := decodeLoop_short []
    ((parseHeader (exRec.take 24)).siteId, "Palehau",
      headerFreq (parseHeader (exRec.take 24))) (by norm_num)
    (by intro h; simp at h)
  rw [hbase] at hstep
  rw [List.append_nil] at hstep
  unfold from_file
  rw [hstep]
  rfl

/-- **C4, counterexample.**  Decoding a record with the realistic bands
25-75 MHz and 75-180 MHz succeeds, and the resulting axis has
75 MHz = 75000000 Hz at both positions 400 and 401 — it is not strictly
increasing. -/
theorem c4_counterexample :
    ∃ s, from_file exRec = .ok s ∧
      s.freq_range.getD 400 0 = 75000000 ∧
      s.freq_range.getD 401 0 = 75000000 ∧
      ¬ s.freq_range.Pairwise (· < ·) := by
  have hf1E : (parseHeader (exRec.take 24)).f1E = 75 := by
    rw [exRec_take24]
    decide
  have hf1B : (parseHeader (exRec.take 24)).f1B = 25 := by
    rw [exRec_take24]
    decide
  have hf2B : (parseHeader (exRec.take 24)).f2B = 75 := by
    rw [exRec_take24]
    decide
  have e400 : (headerFreq (parseHeader (exRec.take 24))).getD 400 0 = 75000000 := by
    rw [headerFreq_getD_left _ 400 (by norm_num), hf1B, hf1E]
    norm_num
  have e401 : (headerFreq (parseHeader (exRec.take 24))).getD 401 0 = 75000000 := by
    rw [headerFreq_getD_right _ 401 (by norm_num) (by norm_num), hf2B]
    norm_num
  refine ⟨_, from_file_exRec, e400, e401, ?_⟩
  show ¬ (headerFreq (parseHeader (exRec.take 24))).Pairwise (· < ·)
  intro hp
  have hlen : (headerFreq (parseHeader (exRec.take 24))).length = 802 :=
    headerFreq_length _
  have hb400 : 400 < (headerFreq (parseHeader (exRec.take 24))).length := by
    rw [hlen]
    omega
  have hb401 : 401 < (headerFreq (parseHeader (exRec.take 24))).length := by
    rw [hlen]
    omega
  have h400 := List.pairwise_iff_getElem.mp hp 400 401 hb400 hb401 (by omega)
  have e1 : (headerFreq (parseHeader (exRec.take 24)))[400] =
      (headerFreq (parseHeader (exRec.take 24))).getD 400 0 := by
    rw [List.getD_eq_getElem?_getD, List.getElem?_eq_getElem hb400]
    rfl
  have e2 : (headerFreq (parseHeader (exRec.take 24)))[401] =
      (headerFreq (parseHeader (exRec.take 24))).getD 401 0 := by
    rw [List.getD_eq_getElem?_getD, List.getElem?_eq_getElem hb401]
    rfl
  rw [e1, e2, e400, e401] at h400
  exact lt_irrefl _ h400

/-- **C4, witness.**  The amended claim applied to the concrete record
`exRec`: 802 entries, first entry 25 MHz in Hz. -/
theorem c4_witness :
    ∃ s, from_file exRec = .ok s ∧ s.time_range ≠ [] ∧
      s.freq_range.length = 802 ∧ s.freq_range.getD 0 0 = 25000000 := by
  refine ⟨_, from_file_exRec, by simp, ?_, ?_⟩
  · exact (c4_amended exRec _ from_file_exRec (by simp)).2.1
  · have h0 := (c4_amended exRec _ from_file_exRec (by simp)).2.2.1
    rw [h0]
    have hf1B : (parseHeader (exRec.take 24)).f1B = 25 := by
      rw [exRec_take24]
      decide
    rw [hf1B]
    norm_num
